import Mathlib

/-!
Shallow embedding of the TTHSDNext download engine core (src/core) and
verification of its specification claims.

Conventions of the embedding:
* Rust `i64` is modelled as `Int` (no claim here depends on 64-bit wraparound);
  Rust integer division `/` on `i64` truncates toward zero and is modelled by
  `Int.tdiv`; integer division by zero panics in Rust and is modelled by
  `Option`/error results.
* Rust `String`/`&str` values are modelled as `List Char`.  Byte slicing such
  as `&s[7..]` is only performed in the source right after matching a 7-byte
  ASCII literal, so it coincides with `List.drop 7`.
* Rust `f64` is modelled as `Rat` (exact arithmetic); the claims about the
  floating-point fields only concern branch structure and pass-through, not
  rounding.
* Atomics and the concurrent supervisor/worker interaction are modelled as an
  explicit small-step machine over interleavings (see the `MState` machine).
-/

/-- Prefix test: `hasPre p l` is true when the character list `p` is an initial segment of
`l`; models Rust `str::starts_with` on the ASCII patterns used in the source. -/
def hasPre : List Char → List Char → Bool
  | [], _ => true
  | _ :: _, [] => false
  | a :: p, b :: l => (a == b) && hasPre p l

/-- Models Rust `str::ends_with` for string patterns. -/
def hasSuf (s l : List Char) : Bool := hasPre s.reverse l.reverse

/-- ASCII lower-casing of one character; the fragment of Rust
`str::to_lowercase` that is relevant to the ASCII patterns matched by
`detect_scheme` (non-ASCII characters are left unchanged, as they never occur
in any matched pattern). -/
def asciiToLower (c : Char) : Char :=
  if 65 ≤ c.toNat && c.toNat ≤ 90 then Char.ofNat (c.toNat + 32) else c

/-- Lower-casing of a whole string, character-wise. -/
def lowerStr (l : List Char) : List Char := l.map asciiToLower

/-- The protocol enumeration of `src/core/get_downloader.rs`. -/
inductive Protocol
  | Http
  | Ftp
  | Sftp
  | BitTorrent
  | Ed2k
  | Metalink
  | Http3
  | Unknown
deriving DecidableEq

def httpScheme : List Char := ['h', 't', 't', 'p', ':', '/', '/']

def httpsScheme : List Char := ['h', 't', 't', 'p', 's', ':', '/', '/']

def ftpScheme : List Char := ['f', 't', 'p', ':', '/', '/']

def ftpsScheme : List Char := ['f', 't', 'p', 's', ':', '/', '/']

def sftpScheme : List Char := ['s', 'f', 't', 'p', ':', '/', '/']

def magnetScheme : List Char := ['m', 'a', 'g', 'n', 'e', 't', ':']

def torrentSuffix : List Char := ['.', 't', 'o', 'r', 'r', 'e', 'n', 't']

def ed2kScheme : List Char := ['e', 'd', '2', 'k', ':', '/', '/']

def metalinkSuffix : List Char := ['.', 'm', 'e', 't', 'a', 'l', 'i', 'n', 'k']

def meta4Suffix : List Char := ['.', 'm', 'e', 't', 'a', '4']

/-- Model of `detect_scheme` from `src/core/get_downloader.rs` lines 103-120: lower-case
the URL, then match scheme patterns in order, falling back to `Unknown`. -/
def detect_scheme (url : List Char) : Protocol :=
  let lower := lowerStr url
  if hasPre httpScheme lower || hasPre httpsScheme lower then .Http
  else if hasPre ftpScheme lower || hasPre ftpsScheme lower then .Ftp
  else if hasPre sftpScheme lower then .Sftp
  else if hasPre magnetScheme lower || hasSuf torrentSuffix lower then .BitTorrent
  else if hasPre ed2kScheme lower then .Ed2k
  else if hasSuf metalinkSuffix lower || hasSuf meta4Suffix lower then .Metalink
  else .Unknown

/-- Two strings are ASCII case-variants of one another: equal character by
character up to ASCII letter case. -/
def caseVariant : List Char → List Char → Bool
  | [], [] => true
  | a :: u, b :: v => (asciiToLower a == asciiToLower b) && caseVariant u v
  | _, _ => false

/-- Model of `DownloadStatus` of `src/core/http_downloader.rs` lines 57-62 (the
`start_time` instant is not part of any claim and is supplied to `snapshot`
as the pre-computed elapsed time). -/
structure DownloadStatus where
  total_size : Int
  downloaded : Int
  error_message : Option String

/-- Model of `DownloadSnapshot` of `src/core/http_downloader.rs` lines 37-55. -/
structure DownloadSnapshot where
  downloaded : Int
  total_size : Int
  progress_percentage : Rat
  is_finished : Bool
  error_message : Option String
  current_speed_bps : Rat
  average_speed_bps : Rat
  elapsed_seconds : Rat

/-- Model of `DownloadStatus::snapshot` (`src/core/http_downloader.rs` lines 94-116):
guard the percentage division on `total_size > 0`, compute
`is_finished = downloaded >= total_size || error_message.is_some()`, and copy
the status fields into the snapshot. -/
def DownloadStatus.snapshot (st : DownloadStatus)
    (current_speed average_speed elapsed : Rat) : DownloadSnapshot :=
  let progress_percentage : Rat :=
    if st.total_size > 0 then ((st.downloaded : Rat) / (st.total_size : Rat)) * 100
    else 0
  let is_finished : Bool := decide (st.downloaded ≥ st.total_size) || st.error_message.isSome
  { downloaded := st.downloaded
    total_size := st.total_size
    progress_percentage := progress_percentage
    is_finished := is_finished
    error_message := st.error_message
    current_speed_bps := current_speed
    average_speed_bps := average_speed
    elapsed_seconds := elapsed }

/-- Model of `DownloadChunk` (declared in the `downloader` module; fields as constructed
by `create_chunks` in `src/core/http_downloader.rs` lines 216-220). -/
structure DownloadChunk where
  start_offset : Int
  end_offset : Int
  done : Bool
deriving DecidableEq

/-- The chunk-size adjustment at the head of `create_chunks`
(`src/core/http_downloader.rs` lines 201-209): `min_chunks = thread_count * 2`;
if `file_size / min_chunks > chunk_size` raise `chunk_size` to the quotient,
but never below 1 MiB.  The `i64` division panics when `min_chunks = 0`,
modelled by `none`. -/
def effectiveChunkSize (file_size chunk_size : Int) (thread_count : Nat) : Option Int :=
  let min_chunks : Int := (thread_count : Int) * 2
  if min_chunks = 0 then none
  else if file_size.tdiv min_chunks > chunk_size then
    let c := file_size.tdiv min_chunks
    some (if c < 1048576 then 1048576 else c)
  else some chunk_size

/-- The slab-partition loop of `create_chunks` (`src/core/http_downloader.rs`
lines 211-224): while `offset < file_size`, emit
`[offset, min (offset + chunk_size - 1) (file_size - 1)]` and continue at
`end + 1`.  The loop is expressed with explicit fuel; `file_size.toNat` steps
suffice whenever `chunk_size ≥ 1` because every iteration advances `offset`. -/
def createChunksLoop (file_size chunk_size : Int) : Nat → Int → List DownloadChunk
  | 0, _ => []
  | fuel + 1, offset =>
    if offset < file_size then
      let e := min (offset + chunk_size - 1) (file_size - 1)
      { start_offset := offset, end_offset := e, done := false }
        :: createChunksLoop file_size chunk_size fuel (e + 1)
    else []

/-- Model of `HTTPDownloader::create_chunks` (`src/core/http_downloader.rs`
lines 200-225).  Returns `none` exactly when the unguarded division
`file_size / (thread_count * 2)` divides by zero (a Rust panic). -/
def create_chunks (file_size chunk_size : Int) (thread_count : Nat) :
    Option (List DownloadChunk) :=
  (effectiveChunkSize file_size chunk_size thread_count).map fun cs =>
    createChunksLoop file_size cs file_size.toNat 0

/-- The `ws://` scheme produced by the http rewrite in `normalize_websocket_url`. -/
def wsScheme : List Char := ['w', 's', ':', '/', '/']

/-- The `wss://` scheme produced by the https rewrite in `normalize_websocket_url`. -/
def wssScheme : List Char := ['w', 's', 's', ':', '/', '/']

/-- The `websocket` segment appended by `normalize_websocket_url`. -/
def websocketSeg : List Char := ['w', 'e', 'b', 's', 'o', 'c', 'k', 'e', 't']

/-- Rust `str::trim` (both ends); the source trims Unicode whitespace, of which
the ASCII subset recognised by `Char.isWhitespace` is modelled (no claim
depends on exotic whitespace). -/
def trimChars (l : List Char) : List Char :=
  (((l.dropWhile Char.isWhitespace).reverse.dropWhile Char.isWhitespace).reverse)

/-- The scheme rewrite of `normalize_websocket_url`
(`src/core/websocket_client.rs` lines 91-95): a leading `http://` (7 bytes)
becomes `ws://`, a leading `https://` (8 bytes) becomes `wss://`. -/
def rewriteScheme (t : List Char) : List Char :=
  if hasPre httpScheme t then wsScheme ++ t.drop 7
  else if hasPre httpsScheme t then wssScheme ++ t.drop 8
  else t

/-- The trailing-slash step of `normalize_websocket_url`
(`src/core/websocket_client.rs` lines 97-99): push `/` unless the string
already ends with it. -/
def ensureSlash (u : List Char) : List Char :=
  if u.getLast? = some '/' then u else u ++ ['/']

/-- Model of `WebSocketClient::normalize_websocket_url` (`src/core/websocket_client.rs`
lines 85-102): trim; empty maps to empty; rewrite a leading `http://` to
`ws://` and `https://` to `wss://`; add a trailing `/` when missing; append
`websocket`. -/
def normalize_websocket_url (raw : List Char) : List Char :=
  let t := trimChars raw
  if t.isEmpty then [] else ensureSlash (rewriteScheme t) ++ websocketSeg

/-- The state of a tokio `mpsc` channel as far as `try_reserve`/`send` can
observe it: its capacity, the number of queued (reserved or sent) messages,
and whether the `Receiver` half is still alive.  `try_reserve` succeeds only
on an open channel with spare capacity; it fails with `Closed` once the
receiver is dropped. -/
structure MpscChannel where
  capacity : Nat
  queued : Nat
  receiverAlive : Bool

/-- Models `Sender::try_reserve(..).is_ok()`. -/
def MpscChannel.tryReserveOk (c : MpscChannel) : Bool :=
  c.receiverAlive && decide (c.queued < c.capacity)

/-- One `send` attempt by the stall watchdog task
(`src/core/http_downloader.rs` line 271); on a closed or full channel the
attempt has no effect (its result is discarded with `let _ =`). -/
def watchdogSend (c : MpscChannel) : MpscChannel :=
  if c.receiverAlive && decide (c.queued < c.capacity) then
    { c with queued := c.queued + 1 }
  else c

/-- Performs `n` watchdog send attempts in sequence. -/
def watchdogSends : Nat → MpscChannel → MpscChannel
  | 0, c => c
  | n + 1, c => watchdogSends n (watchdogSend c)

/-- The stall channel as constructed on `src/core/http_downloader.rs` line 258:
`Arc::new(mpsc::channel::<()>(1).0)` retains only the `Sender` (`.0`); the
`Receiver` (`.1`) is dropped at the end of the statement, closing the
channel. -/
def stalledChannelInit : MpscChannel :=
  { capacity := 1, queued := 0, receiverAlive := false }

/-- One item observed by the body loop of `download_chunk_dynamic`: either a
received buffer — together with the `end_pos` value the iteration loads and
the number of watchdog send attempts that land before this iteration's stall
check — or a stream read error. -/
inductive BodyItem
  | chunk (observedEnd : Int) (len : Nat) (watchdogFires : Nat)
  | readError

/-- The ways the body loop of `download_chunk_dynamic` can finish. -/
inductive ChunkOutcome
  | completed
  | streamFailed
  | stalled
deriving DecidableEq

/-- The body loop of `download_chunk_dynamic` (`src/core/http_downloader.rs`
lines 289-335) restricted to the state the stall check can depend on: stream
errors propagate (`bytes_result?`); when the loaded `end_pos` shows the range
was shrunk below the current write position the loop breaks and returns `Ok`;
otherwise the position advances and the loop returns the `"connection
stalled"` error exactly when `stalled_tx.try_reserve().is_ok()`. -/
def runChunkStream : MpscChannel → Int → List BodyItem → ChunkOutcome
  | _, _, [] => .completed
  | _, _, .readError :: _ => .streamFailed
  | chan, pos, .chunk observedEnd len fires :: rest =>
    let chan := watchdogSends fires chan
    if pos + (len : Int) > observedEnd + 1 then .completed
    else
      let pos := pos + (len : Int)
      if chan.tryReserveOk then .stalled
      else runChunkStream chan pos rest

/-- A point-in-time view of one `ChunkWorker`'s fields
(`src/core/http_downloader.rs` lines 129-136). -/
structure WorkerSnap where
  start_pos : Int
  progress : Int
  end_pos : Int
deriving DecidableEq

/-- Model of `ChunkWorker::remaining` (`src/core/http_downloader.rs` lines 148-152):
`(end_pos - progress).max(0)`. -/
def WorkerSnap.remaining (w : WorkerSnap) : Int := max (w.end_pos - w.progress) 0

/-- The constant `MIN_REASSIGN_SIZE` (2 MiB). -/
def MIN_REASSIGN_SIZE : Int := 2097152

/-- The constant `MAX_CONNECTIONS`. -/
def MAX_CONNECTIONS : Nat := 64

/-- The split decision the supervisor takes: the index of the victim worker,
the value stored into its `end_pos`, and the `[start, end]` window of the
newly spawned worker (whose progress starts at `newStart`). -/
structure SplitDecision where
  victim : Nat
  newEnd : Int
  newStart : Int
  newWorkerEnd : Int
deriving DecidableEq

/-- The scan loop of `HTTPDownloader::download` (`src/core/http_downloader.rs`
lines 471-480): fold over the worker list keeping the greatest remaining
window strictly above the running maximum (which starts at 0), together with
the index of the first worker attaining it. -/
def scanMaxAux : List WorkerSnap → Nat → Int → Option Nat → Int × Option Nat
  | [], _, mr, mi => (mr, mi)
  | w :: t, i, mr, mi =>
    if w.remaining > mr then scanMaxAux t (i + 1) w.remaining (some i)
    else scanMaxAux t (i + 1) mr mi

/-- The scan over the whole worker list, from `max_remaining = 0`,
`max_worker = None`. -/
def scanMax (ws : List WorkerSnap) : Int × Option Nat := scanMaxAux ws 0 0 none

/-- One supervisor re-shard step (`src/core/http_downloader.rs` lines
470-511), taking the list of workers the source scans and the current
`active_count`: no split at or above `MAX_CONNECTIONS`; otherwise scan for the
greatest remaining window; split only when it exceeds `MIN_REASSIGN_SIZE`, by
storing `mid = progress + (end_pos - progress) / 2` into the victim's
`end_pos` and spawning a worker for `[mid + 1, end_pos]`. -/
def superviseSplit (ws : List WorkerSnap) (active_count : Nat) : Option SplitDecision :=
  if active_count < MAX_CONNECTIONS then
    let m := scanMax ws
    if m.1 > MIN_REASSIGN_SIZE then
      match m.2 with
      | some i =>
        match ws.get? i with
        | some w =>
          let mid := w.progress + (w.end_pos - w.progress).tdiv 2
          some { victim := i, newEnd := mid, newStart := mid + 1, newWorkerEnd := w.end_pos }
        | none => none
      | none => none
    else none
  else none

/-- What the source actually scans on a worker completion: the `workers`
vector built once from the initial chunks (`src/core/http_downloader.rs` lines
436-438, scanned at line 474); split-spawned workers are never pushed into
this vector, so they are invisible to the scan. -/
def superviseSplitCode (initialWs _spawnedWs : List WorkerSnap) (active_count : Nat) :
    Option SplitDecision :=
  superviseSplit initialWs active_count

/-- Modelled from the claim and the spec's words: the Supervisor selects
"among all extant workers (initial and split-spawned alike)". -/
def superviseSplitClaim (initialWs spawnedWs : List WorkerSnap) (active_count : Nat) :
    Option SplitDecision :=
  superviseSplit (initialWs ++ spawnedWs) active_count

/-- Program counter of the worker task in the interleaving machine: about to
load `end_pos` for the next buffer, about to process the received buffer,
about to publish `progress` (normal path), about to publish the final
`progress` after breaking, or exited. -/
inductive WPhase
  | idle
  | proc
  | store
  | finStore
  | done
deriving DecidableEq

/-- Program counter of the supervisor while it re-shards this worker: the two
loads of the scan (`remaining()` loads `end_pos` then `progress`), the re-load
of `progress` then `end_pos`, and the `end_pos.store(mid)`. -/
inductive SPhase
  | s0
  | s1
  | s2
  | s3
  | s4
deriving DecidableEq

/-- State of the interleaving machine for one `ChunkWorker` and the
supervisor: the two shared atomics `progress` and `endPos`, the worker's
locals (`current_pos` and the `dynamic_end` it loaded for the current buffer),
the supervisor's locals, both program counters, and the log of performed file
writes, each recorded as `(first offset, last offset, end_pos observed for
that buffer)`. -/
structure MState where
  startPos : Int
  progress : Int
  endPos : Int
  currentPos : Int
  observedEnd : Int
  wph : WPhase
  scanE : Int
  scanP : Int
  loadP : Int
  loadE : Int
  sph : SPhase
  writes : List (Int × Int × Int)

/-- One atomic step of either task.  Worker steps follow
`src/core/http_downloader.rs` lines 289-317 and 348: load `end_pos`
(line 298); process the buffer — on `current_pos + len > dynamic_end + 1`
write only the usable head and break to the final `progress` store (lines
301-309, 348), otherwise write everything (lines 312-314); publish `progress`
(line 317).  Supervisor steps follow lines 474-489: the scan's `end_pos` then
`progress` loads (lines 149-150), the guard `max_remaining >
MIN_REASSIGN_SIZE`, the re-loads of `progress` and `end_pos` (lines 484-485),
and `end_pos.store(mid)` (line 489). -/
inductive MStep
  | wLoad
  | wProc (len : Nat)
  | wStore
  | sScanE
  | sScanP
  | sGuard
  | sLoadE
  | sStore

/-- The transition function of the interleaving machine.  Steps issued when
the corresponding task is not at the matching program point leave the state
unchanged, so every list of steps denotes a valid interleaving. -/
def mstep (s : MState) : MStep → MState
  | .wLoad =>
    if s.wph = .idle then { s with observedEnd := s.endPos, wph := .proc } else s
  | .wProc len =>
    if s.wph = .proc then
      if s.currentPos + (len : Int) > s.observedEnd + 1 then
        let usable := max (s.observedEnd + 1 - s.currentPos) 0
        if usable > 0 then
          { s with
            writes := (s.currentPos, s.currentPos + usable - 1, s.observedEnd) :: s.writes
            currentPos := s.currentPos + usable
            wph := .finStore }
        else { s with wph := .finStore }
      else
        if (len : Int) > 0 then
          { s with
            writes := (s.currentPos, s.currentPos + (len : Int) - 1, s.observedEnd) :: s.writes
            currentPos := s.currentPos + (len : Int)
            wph := .store }
        else { s with wph := .store }
    else s
  | .wStore =>
    if s.wph = .store then { s with progress := s.currentPos, wph := .idle }
    else if s.wph = .finStore then { s with progress := s.currentPos, wph := .done }
    else s
  | .sScanE =>
    if s.sph = .s0 then { s with scanE := s.endPos, sph := .s1 } else s
  | .sScanP =>
    if s.sph = .s1 then { s with scanP := s.progress, sph := .s2 } else s
  | .sGuard =>
    if s.sph = .s2 then
      if max (s.scanE - s.scanP) 0 > MIN_REASSIGN_SIZE then
        { s with loadP := s.progress, sph := .s3 }
      else { s with sph := .s0 }
    else s
  | .sLoadE =>
    if s.sph = .s3 then { s with loadE := s.endPos, sph := .s4 } else s
  | .sStore =>
    if s.sph = .s4 then
      { s with endPos := s.loadP + (s.loadE - s.loadP).tdiv 2, sph := .s0 }
    else s

/-- Run the machine over a schedule (an arbitrary interleaving of worker and
supervisor steps, with buffer sizes chosen by the network). -/
def mrun (init : MState) (sched : List MStep) : MState := sched.foldl mstep init

/-- The machine's initial state for a worker created as
`ChunkWorker::new(start, end)`: `progress = start`, `current_pos = start`,
no writes yet, both tasks at their loop heads. -/
def minit (start end_ : Int) : MState :=
  { startPos := start
    progress := start
    endPos := end_
    currentPos := start
    observedEnd := 0
    wph := .idle
    scanE := 0
    scanP := 0
    loadP := 0
    loadE := 0
    sph := .s0
    writes := [] }

/-- A schedule on which the supervisor's `mid` store lands after the worker
has already advanced past `mid`: the supervisor loads `progress = 0` and
`end_pos = 10485759`, the worker then downloads two 4 MiB buffers, and only
then does the supervisor store `mid = 5242879`. -/
def raceScheduleA : List MStep :=
  [.sScanE, .sScanP, .sGuard, .sLoadE,
   .wLoad, .wProc 4194304, .wStore,
   .wLoad, .wProc 4194304, .wStore,
   .sStore]

/-- A schedule on which the store even raises `end_pos`: the worker finishes
its whole window (progress `= end_pos + 1`) between the scan and the re-load,
so `mid = progress + (end_pos - progress) / 2 = progress` exceeds the loaded
`end_pos` (Rust `/` truncates `-1 / 2` to `0`). -/
def raceScheduleB : List MStep :=
  [.sScanE, .sScanP,
   .wLoad, .wProc 10485760, .wStore,
   .sGuard, .sLoadE, .sStore]

/-- The constant `FAT32_MAX_FILE_SIZE` (`src/core/http_downloader.rs` line 404):
4 GiB − 1 byte. -/
def FAT32_MAX_FILE_SIZE : Int := 4294967295

/-- Marker for the specific FAT32 4 GiB limit error message built on
`src/core/http_downloader.rs` lines 410-413 (the source message is a Chinese
format string naming the 4GB FAT32 limit; its text is abstracted). -/
def fat32LimitError : String := "FAT32 4GB limit"

/-- Marker for the divide-by-zero panic inside `create_chunks`. -/
def divideByZeroPanic : String := "divide by zero"

/-- The preflight of `HTTPDownloader::download` from the pre-allocation
attempt to the initial partition (`src/core/http_downloader.rs` lines
403-432), given whether `file.set_len(file_size)` failed: on failure with
`file_size > FAT32_MAX_FILE_SIZE` the download aborts with the FAT32 error
before any chunk or worker exists (so no range request is issued); on failure
at or below the bound it only warns (line 415) and proceeds to build the
chunks exactly as on success. -/
def downloadPreflight (setLenFailed : Bool) (file_size chunk_size : Int)
    (thread_count : Nat) : Except String (List DownloadChunk) :=
  if setLenFailed ∧ file_size > FAT32_MAX_FILE_SIZE then
    .error fat32LimitError
  else
    match create_chunks file_size chunk_size thread_count with
    | some chunks => .ok chunks
    | none => .error divideByZeroPanic


/-- The invariant of the interleaving machine that survives every schedule:
the worker's position and published progress never fall below `start_pos`,
and every performed write is a non-empty range lying between `start_pos` and
the `end_pos` value the worker had observed for that buffer. -/
def MInv (s : MState) : Prop :=
  s.startPos ≤ s.currentPos ∧ s.startPos ≤ s.progress ∧
    ∀ e ∈ s.writes, s.startPos ≤ e.1 ∧ e.1 ≤ e.2.1 ∧ e.2.1 ≤ e.2.2

/-- Tiling check: `tiles file_size cs off L` checks that `L` exactly tiles
`[off, file_size)`: non-empty, the first chunk starts at `off`, every chunk
starts one past its predecessor's end, every non-final chunk has length
exactly `cs`, and the final chunk ends at `file_size - 1` with a positive
length of at most `cs`. -/
def tiles (file_size cs : Int) : Int → List DownloadChunk → Bool
  | _, [] => false
  | off, c :: rest =>
    decide (c.start_offset = off) &&
      (if rest.isEmpty then
        decide (c.end_offset = file_size - 1) &&
          decide (c.end_offset - c.start_offset + 1 ≤ cs) &&
          decide (c.start_offset ≤ c.end_offset)
      else
        decide (c.end_offset - c.start_offset + 1 = cs) &&
          tiles file_size cs (c.end_offset + 1) rest)

/-! ## Helper lemmas -/

/-- Case-variant strings have the same lower-casing. -/
theorem lowerStr_eq_of_caseVariant :
    ∀ u v : List Char, caseVariant u v = true → lowerStr u = lowerStr v
  | [], [], _ => rfl
  | a :: u, b :: v, h => by
    simp only [caseVariant, Bool.and_eq_true, beq_iff_eq] at h
    simp only [lowerStr, List.map_cons, List.map]
    exact by
      have ih := lowerStr_eq_of_caseVariant u v h.2
      simp only [lowerStr] at ih
      rw [h.1, ih]
  | [], _ :: _, h => by simp [caseVariant] at h
  | _ :: _, [], h => by simp [caseVariant] at h

/-- A watchdog send attempt never revives a dropped receiver. -/
theorem watchdogSend_receiverAlive (c : MpscChannel) :
    (watchdogSend c).receiverAlive = c.receiverAlive := by
  unfold watchdogSend
  split <;> rfl

/-- Iterated watchdog send attempts never revive a dropped receiver. -/
theorem watchdogSends_receiverAlive :
    ∀ (n : Nat) (c : MpscChannel), (watchdogSends n c).receiverAlive = c.receiverAlive
  | 0, _ => rfl
  | n + 1, c => by
    rw [watchdogSends, watchdogSends_receiverAlive n, watchdogSend_receiverAlive]

/-- A channel whose receiver is dropped always fails `try_reserve`. -/
theorem tryReserveOk_of_closed (c : MpscChannel) (h : c.receiverAlive = false) :
    c.tryReserveOk = false := by
  simp [MpscChannel.tryReserveOk, h]

/-- On any channel whose receiver is dropped, the body loop never produces the
stalled outcome, whatever the stream delivers and whenever the watchdog
fires. -/
theorem runChunkStream_no_stall :
    ∀ (items : List BodyItem) (chan : MpscChannel), chan.receiverAlive = false →
      ∀ pos : Int, runChunkStream chan pos items ≠ .stalled
  | [], _, _, _ => by simp [runChunkStream]
  | .readError :: _, _, _, _ => by simp [runChunkStream]
  | .chunk observedEnd len fires :: rest, chan, h, pos => by
    have h2 : (watchdogSends fires chan).receiverAlive = false := by
      rw [watchdogSends_receiverAlive, h]
    have h3 : (watchdogSends fires chan).tryReserveOk = false :=
      tryReserveOk_of_closed _ h2
    simp only [runChunkStream]
    split
    · simp
    · rw [h3]
      simp only [Bool.false_eq_true, if_false]
      exact runChunkStream_no_stall rest _ h2 _

/-! ## Claim theorems -/

/-- C1: the spec says a worker whose `last_activity` lags more than 30 s
aborts with a `"connection stalled"` error.  In the code the stall channel's
receiver is dropped on the very line that creates it
(`mpsc::channel::<()>(1).0`), so `try_reserve` always fails with `Closed`,
and the `"connection stalled"` return on line 333 is unreachable: no run of
the body loop, on any stream and with any watchdog activity, produces the
stalled outcome.  (The converse half of the claim — a continually fed worker
never returns that error — holds, but only because the error is unreachable
for every worker.) -/
theorem c1_stalled_error_unreachable (items : List BodyItem) (pos : Int) :
    runChunkStream stalledChannelInit pos items ≠ .stalled :=
  runChunkStream_no_stall items stalledChannelInit rfl pos

/-- C8: `DownloadStatus::snapshot` reports `is_finished` exactly when
`downloaded ≥ total_size` or an error message is set, and copies the status
fields (`total_size`, `downloaded`, `error_message`) unchanged into the
snapshot. -/
theorem c8_snapshot_is_finished (st : DownloadStatus) (cs av el : Rat) :
    ((st.snapshot cs av el).is_finished = true ↔
      st.total_size ≤ st.downloaded ∨ st.error_message.isSome = true) ∧
    (st.snapshot cs av el).total_size = st.total_size ∧
    (st.snapshot cs av el).downloaded = st.downloaded ∧
    (st.snapshot cs av el).error_message = st.error_message := by
  refine ⟨?_, rfl, rfl, rfl⟩
  simp [DownloadStatus.snapshot, ge_iff_le]

/-- C10: the percentage division in `DownloadStatus::snapshot` is guarded:
when `total_size ≤ 0` the snapshot reports `0` (no division is performed),
and when `total_size > 0` it reports `downloaded / total_size * 100`. -/
theorem c10_progress_percentage_guard (st : DownloadStatus) (cs av el : Rat) :
    (st.total_size ≤ 0 → (st.snapshot cs av el).progress_percentage = 0) ∧
    (0 < st.total_size →
      (st.snapshot cs av el).progress_percentage =
        ((st.downloaded : Rat) / (st.total_size : Rat)) * 100) := by
  constructor
  · intro h
    simp [DownloadStatus.snapshot, not_lt.mpr h]
  · intro h
    simp [DownloadStatus.snapshot, h]

/-- Witness for C10 at `total_size = 0` and at `total_size = 4`,
`downloaded = 1`. -/
theorem c10_witness :
    ((DownloadStatus.mk 0 5 none).snapshot 0 0 0).progress_percentage = 0 ∧
    ((DownloadStatus.mk 4 1 none).snapshot 0 0 0).progress_percentage =
      (((1 : Int) : Rat) / ((4 : Int) : Rat)) * 100 :=
  ⟨(c10_progress_percentage_guard ⟨0, 5, none⟩ 0 0 0).1 (by norm_num),
   (c10_progress_percentage_guard ⟨4, 1, none⟩ 0 0 0).2 (by norm_num)⟩

/-- C7: `detect_scheme` is total by construction (it is a function on all
strings, with `Unknown` as the final fallback, as the empty and schemeless
cases show), and it is ASCII case-insensitive: case-variant URLs detect the
same protocol; in particular an uppercase `FTP://` routes to `Ftp` and an
uppercase `.TORRENT` suffix routes to `BitTorrent`. -/
theorem c7_detect_scheme_case_insensitive :
    (∀ u v : List Char, caseVariant u v = true → detect_scheme u = detect_scheme v) ∧
    detect_scheme ['F', 'T', 'P', ':', '/', '/', 'h', 'o', 's', 't', '/', 'f'] = .Ftp ∧
    detect_scheme ['f', 'i', 'l', 'e', '.', 'T', 'O', 'R', 'R', 'E', 'N', 'T'] = .BitTorrent ∧
    detect_scheme [] = .Unknown ∧
    detect_scheme ['x', 'y', 'z', ':', '/', '/', 'f', 'o', 'o'] = .Unknown := by
  refine ⟨?_, by decide, by decide, by decide, by decide⟩
  intro u v h
  have hl := lowerStr_eq_of_caseVariant u v h
  simp only [detect_scheme]
  rw [hl]

/-- Witness for C7: a concrete case-variant pair, with the hypothesis
discharged by evaluation. -/
theorem c7_witness :
    caseVariant ['F', 't', 'P', ':', '/', '/', 'A'] ['f', 'T', 'p', ':', '/', '/', 'a'] = true ∧
    detect_scheme ['F', 't', 'P', ':', '/', '/', 'A'] =
      detect_scheme ['f', 'T', 'p', ':', '/', '/', 'a'] :=
  ⟨by decide, c7_detect_scheme_case_insensitive.1 _ _ (by decide)⟩

/-- C9: `create_chunks` evaluates `file_size / (thread_count * 2)` unguarded,
so it only avoids the divide-by-zero panic under the precondition
`thread_count ≥ 1`; for `thread_count = 0` the division by zero (modelled as
`none`) is reached on every input. -/
theorem c9_create_chunks_division_guard (file_size chunk_size : Int) (thread_count : Nat) :
    (1 ≤ thread_count → (create_chunks file_size chunk_size thread_count).isSome = true) ∧
    create_chunks file_size chunk_size 0 = none := by
  constructor
  · intro h
    have h2 : ((thread_count : Int) * 2) ≠ 0 := by
      have : (1 : Int) ≤ (thread_count : Int) := by exact_mod_cast h
      omega
    simp only [create_chunks, effectiveChunkSize, if_neg h2]
    split <;> simp
  · simp [create_chunks, effectiveChunkSize]

/-- Witness for C9 at `thread_count = 3`. -/
theorem c9_witness : (create_chunks 100 7 3).isSome = true :=
  (c9_create_chunks_division_guard 100 7 3).1 (by decide)

/-- C5: in the preflight, a failed pre-allocation aborts with the specific
FAT32 4 GiB limit error — before any chunk is formed, so before any range
request — exactly when `file_size > 4294967295`; at or below that bound the
failure only produces a warning and the download proceeds exactly as if the
pre-allocation had succeeded. -/
theorem c5_fat32_prealloc_gate (file_size chunk_size : Int) (thread_count : Nat) :
    (file_size > FAT32_MAX_FILE_SIZE →
      downloadPreflight true file_size chunk_size thread_count = .error fat32LimitError) ∧
    (file_size ≤ FAT32_MAX_FILE_SIZE →
      downloadPreflight true file_size chunk_size thread_count =
        downloadPreflight false file_size chunk_size thread_count ∧
      downloadPreflight true file_size chunk_size thread_count ≠ .error fat32LimitError) := by
  constructor
  · intro h
    simp [downloadPreflight, h]
  · intro h
    have hn : ¬ (True ∧ file_size > FAT32_MAX_FILE_SIZE) := by
      simp [not_lt.mpr h]
    constructor
    · simp only [downloadPreflight]
      rw [if_neg (by simpa using hn), if_neg (by simp [not_lt.mpr h])]
    · simp only [downloadPreflight]
      rw [if_neg (by simpa using hn)]
      split <;> simp [fat32LimitError, divideByZeroPanic]

/-- Witness for C5 on both sides of the 4 GiB boundary. -/
theorem c5_witness :
    downloadPreflight true 4294967296 1048576 2 = .error fat32LimitError ∧
    downloadPreflight true 4294967295 1048576 2 =
      downloadPreflight false 4294967295 1048576 2 :=
  ⟨(c5_fat32_prealloc_gate 4294967296 1048576 2).1 (by decide),
   ((c5_fat32_prealloc_gate 4294967295 1048576 2).2 (by decide)).1⟩

/-- Full characterization of the scan loop: either nothing beat the incoming
running maximum (and every scanned remaining window is bounded by it), or the
result names the first scanned worker attaining the maximal remaining window,
which strictly exceeds the incoming running maximum. -/
theorem scanMaxAux_spec :
    ∀ (l : List WorkerSnap) (i : Nat) (mr : Int) (mi : Option Nat),
      ((scanMaxAux l i mr mi).1 = mr ∧ (scanMaxAux l i mr mi).2 = mi ∧
        ∀ w ∈ l, w.remaining ≤ mr) ∨
      (∃ j w, l.get? j = some w ∧ (scanMaxAux l i mr mi).2 = some (i + j) ∧
        (scanMaxAux l i mr mi).1 = w.remaining ∧ mr < w.remaining ∧
        (∀ k w', k < j → l.get? k = some w' → w'.remaining < w.remaining) ∧
        (∀ k w', l.get? k = some w' → w'.remaining ≤ w.remaining))
  | [], i, mr, mi => by
    left
    exact ⟨rfl, rfl, by simp⟩
  | w :: t, i, mr, mi => by
    by_cases hw : w.remaining > mr
    · rw [show scanMaxAux (w :: t) i mr mi = scanMaxAux t (i + 1) w.remaining (some i) by
        simp [scanMaxAux, hw]]
      rcases scanMaxAux_spec t (i + 1) w.remaining (some i) with ⟨h1, h2, h3⟩ | ⟨j, w', hj, h2, h1, hlt, hpre, hall⟩
      · right
        refine ⟨0, w, rfl, by simpa using h2, h1, hw, ?_, ?_⟩
        · intro k w' hk
          omega
        · intro k w' hk
          match k, hk with
          | 0, hk => simp at hk; subst hk; omega
          | k + 1, hk =>
            have := h3 w' (List.get?_mem hk)
            omega
      · right
        refine ⟨j + 1, w', by simpa using hj, by rw [h2]; congr 1; omega, h1, by omega, ?_, ?_⟩
        · intro k w'' hk hget
          match k, hget with
          | 0, hget => simp at hget; subst hget; omega
          | k + 1, hget => exact hpre k w'' (by omega) (by simpa using hget)
        · intro k w'' hget
          match k, hget with
          | 0, hget => simp at hget; subst hget; omega
          | k + 1, hget => exact hall k w'' (by simpa using hget)
    · rw [show scanMaxAux (w :: t) i mr mi = scanMaxAux t (i + 1) mr mi by
        simp [scanMaxAux, hw]]
      rcases scanMaxAux_spec t (i + 1) mr mi with ⟨h1, h2, h3⟩ | ⟨j, w', hj, h2, h1, hlt, hpre, hall⟩
      · left
        refine ⟨h1, h2, ?_⟩
        intro x hx
        rcases List.mem_cons.mp hx with rfl | hx
        · omega
        · exact h3 x hx
      · right
        refine ⟨j + 1, w', by simpa using hj, by rw [h2]; congr 1; omega, h1, hlt, ?_, ?_⟩
        · intro k w'' hk hget
          match k, hget with
          | 0, hget => simp at hget; subst hget; omega
          | k + 1, hget => exact hpre k w'' (by omega) (by simpa using hget)
        · intro k w'' hget
          match k, hget with
          | 0, hget => simp at hget; subst hget; omega
          | k + 1, hget => exact hall k w'' (by simpa using hget)

/-- C2 counterexample: a reachable supervisor state — the single initial
worker exhausted (`remaining = 0`), one split-spawned worker with 10 MiB
remaining, 2 spawned connections — on which the code's scan (which only sees
the initial `workers` vector) does not split, while the claim's scan over all
extant workers (initial and split-spawned alike) demands a split of the
spawned worker.  So the claim, as stated, is false of the code. -/
theorem c2_counterexample :
    superviseSplitCode [⟨0, 100, 99⟩] [⟨0, 0, 10485759⟩] 2 ≠
      superviseSplitClaim [⟨0, 100, 99⟩] [⟨0, 0, 10485759⟩] 2 := by
  decide

/-- C2 (amended): on a worker completion the supervisor re-shards only when
its spawn counter is below `MAX_CONNECTIONS`, and it selects its victim among
the INITIAL workers only — split-spawned workers are never scanned.  Within
that list the code behaves as claimed, in both directions: a split happens
exactly when some initial worker's remaining window exceeds
`MIN_REASSIGN_SIZE` (2 MiB) — conjunct 2 gives no split when none does,
conjunct 4 guarantees one when one does — and whenever a split happens
(conjuncts 3 and 4) the victim is the first worker with the greatest
remaining window `end_pos − progress` (strictly greater than all earlier
ones, at least as great as all), the victim's `end_pos` becomes
`mid = progress + (end_pos − progress) / 2`, and the new worker covers
`[mid + 1, old end_pos]` starting at `mid + 1`. -/
theorem c2_supervisor_split_initial_workers (initialWs spawnedWs : List WorkerSnap)
    (active_count : Nat) :
    (MAX_CONNECTIONS ≤ active_count →
      superviseSplitCode initialWs spawnedWs active_count = none) ∧
    (active_count < MAX_CONNECTIONS →
      (∀ w ∈ initialWs, w.remaining ≤ MIN_REASSIGN_SIZE) →
      superviseSplitCode initialWs spawnedWs active_count = none) ∧
    (∀ d, superviseSplitCode initialWs spawnedWs active_count = some d →
      active_count < MAX_CONNECTIONS ∧
      ∃ w, initialWs.get? d.victim = some w ∧
        MIN_REASSIGN_SIZE < w.remaining ∧
        (∀ k w', initialWs.get? k = some w' → w'.remaining ≤ w.remaining) ∧
        (∀ k w', k < d.victim → initialWs.get? k = some w' → w'.remaining < w.remaining) ∧
        d.newEnd = w.progress + (w.end_pos - w.progress).tdiv 2 ∧
        d.newStart = d.newEnd + 1 ∧
        d.newWorkerEnd = w.end_pos) ∧
    (active_count < MAX_CONNECTIONS →
      ∀ w0 ∈ initialWs, MIN_REASSIGN_SIZE < w0.remaining →
      ∃ d w, superviseSplitCode initialWs spawnedWs active_count = some d ∧
        initialWs.get? d.victim = some w ∧
        MIN_REASSIGN_SIZE < w.remaining ∧
        (∀ k w', initialWs.get? k = some w' → w'.remaining ≤ w.remaining) ∧
        (∀ k w', k < d.victim → initialWs.get? k = some w' → w'.remaining < w.remaining) ∧
        d.newEnd = w.progress + (w.end_pos - w.progress).tdiv 2 ∧
        d.newStart = d.newEnd + 1 ∧
        d.newWorkerEnd = w.end_pos) := by
  refine ⟨?_, ?_, ?_, ?_⟩
  · intro h
    simp [superviseSplitCode, superviseSplit, Nat.not_lt.mpr h]
  · intro hac hsmall
    simp only [superviseSplitCode, superviseSplit, if_pos hac]
    rcases scanMaxAux_spec initialWs 0 0 none with ⟨h1, _, _⟩ | ⟨j, w, hj, _, h1, _, _, _⟩
    · rw [if_neg]
      rw [scanMax, h1]
      have : (0 : Int) ≤ MIN_REASSIGN_SIZE := by decide
      omega
    · rw [if_neg]
      rw [scanMax, h1]
      have := hsmall w (List.get?_mem hj)
      omega
  · intro d hd
    simp only [superviseSplitCode, superviseSplit] at hd
    by_cases hac : active_count < MAX_CONNECTIONS
    · refine ⟨hac, ?_⟩
      rw [if_pos hac] at hd
      rcases scanMaxAux_spec initialWs 0 0 none with ⟨h1, h2, _⟩ | ⟨j, w, hj, h2, h1, _, hpre, hall⟩
      · rw [scanMax] at hd
        by_cases hbig : (scanMaxAux initialWs 0 0 none).1 > MIN_REASSIGN_SIZE
        · rw [if_pos hbig, h2] at hd
          exact absurd hd (by simp)
        · rw [if_neg hbig] at hd
          exact absurd hd (by simp)
      · rw [scanMax] at hd
        by_cases hbig : (scanMaxAux initialWs 0 0 none).1 > MIN_REASSIGN_SIZE
        · rw [if_pos hbig, h2] at hd
          simp only [Nat.zero_add] at hd
          rw [hj] at hd
          refine ⟨w, ?_, ?_, ?_, ?_, ?_, ?_, ?_⟩
          · rw [show d.victim = j by cases hd; rfl]
            exact hj
          · rw [h1] at hbig
            exact hbig
          · exact fun k w' hk => hall k w' hk
          · intro k w' hk hget
            refine hpre k w' ?_ hget
            rw [show d.victim = j by cases hd; rfl] at hk
            exact hk
          · cases hd; rfl
          · cases hd; rfl
          · cases hd; rfl
        · rw [if_neg hbig] at hd
          exact absurd hd (by simp)
    · rw [if_neg hac] at hd
      exact absurd hd (by simp)
  · intro hac w0 hmem hbig0
    simp only [superviseSplitCode, superviseSplit, if_pos hac]
    rcases scanMaxAux_spec initialWs 0 0 none with ⟨h1, _, h3⟩ | ⟨j, w, hj, h2, h1, _, hpre, hall⟩
    · exfalso
      have hle := h3 w0 hmem
      have h0 : (0 : Int) ≤ MIN_REASSIGN_SIZE := by decide
      omega
    · obtain ⟨n, hn⟩ := List.get?_of_mem hmem
      have hw0le := hall n w0 hn
      have hbig : (scanMaxAux initialWs 0 0 none).1 > MIN_REASSIGN_SIZE := by
        rw [h1]
        omega
      rw [scanMax, if_pos hbig, h2]
      simp only [Nat.zero_add]
      rw [hj]
      refine ⟨_, w, rfl, hj, by rw [h1] at hbig; exact hbig, hall, ?_, rfl, rfl, rfl⟩
      intro k w' hk hget
      exact hpre k w' hk hget

/-- Witness for C2: the ceiling case (`active_count = 64`), the
too-small-to-split case (single worker with exactly 2 MiB remaining), and a
case where the split is guaranteed to occur (single worker with 10 MiB
remaining, 2 connections), each with its hypotheses discharged by
evaluation. -/
theorem c2_witness :
    superviseSplitCode [⟨0, 0, 10485759⟩] [] 64 = none ∧
    superviseSplitCode [⟨0, 90, 2097242⟩] [] 2 = none ∧
    ∃ d w, superviseSplitCode [⟨0, 0, 10485759⟩] [] 2 = some d ∧
      ([⟨0, 0, 10485759⟩] : List WorkerSnap).get? d.victim = some w ∧
      MIN_REASSIGN_SIZE < w.remaining ∧
      d.newEnd = w.progress + (w.end_pos - w.progress).tdiv 2 ∧
      d.newStart = d.newEnd + 1 ∧
      d.newWorkerEnd = w.end_pos :=
  ⟨(c2_supervisor_split_initial_workers [⟨0, 0, 10485759⟩] [] 64).1 (by decide),
   (c2_supervisor_split_initial_workers [⟨0, 90, 2097242⟩] [] 2).2.1 (by decide) (by decide),
   by
    obtain ⟨d, w, hd, hget, hbig, _, _, hmid, hstart, hend⟩ :=
      (c2_supervisor_split_initial_workers [⟨0, 0, 10485759⟩] [] 2).2.2.2
        (by decide) ⟨0, 0, 10485759⟩ (by decide) (by decide)
    exact ⟨d, w, hd, hget, hbig, hmid, hstart, hend⟩⟩

/-- The field `startPos` is immutable under every step. -/
theorem mstep_startPos (s : MState) (st : MStep) : (mstep s st).startPos = s.startPos := by
  cases st <;> simp only [mstep] <;> split <;> first | rfl | (split <;> first | rfl | (split <;> rfl))

/-- Each machine step preserves the invariant. -/
theorem mstep_inv (s : MState) (st : MStep) (h : MInv s) : MInv (mstep s st) := by
  obtain ⟨h1, h2, h3⟩ := h
  cases st with
  | wLoad =>
    simp only [mstep]
    split
    · exact ⟨h1, h2, h3⟩
    · exact ⟨h1, h2, h3⟩
  | wProc len =>
    simp only [mstep]
    split
    · split
      · split
        · refine ⟨by dsimp only; omega, h2, ?_⟩
          intro e he
          rcases List.mem_cons.mp he with rfl | he
          · dsimp only
            omega
          · exact h3 e he
        · exact ⟨h1, h2, h3⟩
      · split
        · refine ⟨by dsimp only; omega, h2, ?_⟩
          intro e he
          rcases List.mem_cons.mp he with rfl | he
          · dsimp only
            omega
          · exact h3 e he
        · exact ⟨h1, h2, h3⟩
    · exact ⟨h1, h2, h3⟩
  | wStore =>
    simp only [mstep]
    split
    · exact ⟨h1, h1, h3⟩
    · split
      · exact ⟨h1, h1, h3⟩
      · exact ⟨h1, h2, h3⟩
  | sScanE =>
    simp only [mstep]
    split
    · exact ⟨h1, h2, h3⟩
    · exact ⟨h1, h2, h3⟩
  | sScanP =>
    simp only [mstep]
    split
    · exact ⟨h1, h2, h3⟩
    · exact ⟨h1, h2, h3⟩
  | sGuard =>
    simp only [mstep]
    split
    · split
      · exact ⟨h1, h2, h3⟩
      · exact ⟨h1, h2, h3⟩
    · exact ⟨h1, h2, h3⟩
  | sLoadE =>
    simp only [mstep]
    split
    · exact ⟨h1, h2, h3⟩
    · exact ⟨h1, h2, h3⟩
  | sStore =>
    simp only [mstep]
    split
    · exact ⟨h1, h2, h3⟩
    · exact ⟨h1, h2, h3⟩

/-- The invariant holds after running any schedule from an invariant state. -/
theorem mrun_inv : ∀ (sched : List MStep) (init : MState), MInv init → MInv (mrun init sched)
  | [], _, h => h
  | st :: rest, init, h => mrun_inv rest (mstep init st) (mstep_inv init st h)

/-- The field `startPos` after running any schedule. -/
theorem mrun_startPos : ∀ (sched : List MStep) (init : MState),
    (mrun init sched).startPos = init.startPos
  | [], _ => rfl
  | st :: rest, init => by
    rw [show mrun init (st :: rest) = mrun (mstep init st) rest from rfl,
      mrun_startPos rest (mstep init st), mstep_startPos]

/-- C3 counterexample: two concrete interleavings of the machine, both
reachable executions of the source.  On `raceScheduleA` the worker advances
two 4 MiB buffers between the supervisor's loads and its `end_pos.store(mid)`,
leaving `progress > end_pos + 1` — the claimed invariant
`start_pos ≤ progress ≤ end_pos + 1` is violated, and `mid` was stored below
the worker's current progress.  On `raceScheduleB` the worker finishes its
whole window inside that race window and the store RAISES `end_pos` (from
10485759 to 10485760), refuting "end_pos only ever decreases". -/
theorem c3_counterexample :
    (mrun (minit 0 10485759) raceScheduleA).endPos + 1 <
      (mrun (minit 0 10485759) raceScheduleA).progress ∧
    (minit 0 10485759).endPos < (mrun (minit 0 10485759) raceScheduleB).endPos := by
  decide

/-- C3 (amended): in every interleaving of one worker with the supervisor,
`start_pos ≤ progress` holds at all times, and the "in particular" clause of
the claim is unconditionally true: every write the worker performs is a
non-empty range that starts at or above `start_pos` and ends at or below the
`end_pos` value the worker observed for that buffer.  (The remaining clauses
of the claim — `progress ≤ end_pos + 1`, `end_pos` never raised, `mid` never
below current progress — fail on the code; see the counterexample.) -/
theorem c3_worker_write_bounds (start end0 : Int) (sched : List MStep) :
    start ≤ (mrun (minit start end0) sched).progress ∧
    ∀ e ∈ (mrun (minit start end0) sched).writes,
      start ≤ e.1 ∧ e.1 ≤ e.2.1 ∧ e.2.1 ≤ e.2.2 := by
  have hinv : MInv (mrun (minit start end0) sched) :=
    mrun_inv sched (minit start end0) ⟨le_refl _, le_refl _, by simp [minit]⟩
  have hs : (mrun (minit start end0) sched).startPos = start :=
    mrun_startPos sched (minit start end0)
  obtain ⟨_, h2, h3⟩ := hinv
  rw [hs] at h2 h3
  exact ⟨h2, h3⟩

/-- Past the end of the file the partition loop emits nothing. -/
theorem createChunksLoop_stop (file_size cs : Int) (fuel : Nat) (off : Int)
    (h : ¬ off < file_size) : createChunksLoop file_size cs fuel off = [] := by
  cases fuel with
  | zero => rfl
  | succ n => simp [createChunksLoop, h]

/-- The partition loop tiles `[off, file_size)` whenever the chunk size is
positive and the fuel covers the remaining length. -/
theorem createChunksLoop_tiles (file_size cs : Int) (hcs : 1 ≤ cs) :
    ∀ (fuel : Nat) (off : Int), off < file_size → (file_size - off).toNat ≤ fuel →
      tiles file_size cs off (createChunksLoop file_size cs fuel off) = true := by
  intro fuel
  induction fuel with
  | zero =>
    intro off hlt hf
    exfalso
    omega
  | succ n ih =>
    intro off hlt hf
    simp only [createChunksLoop, if_pos hlt]
    by_cases hlast : file_size - 1 ≤ off + cs - 1
    · have he : min (off + cs - 1) (file_size - 1) = file_size - 1 := min_eq_right hlast
      rw [he, createChunksLoop_stop file_size cs n (file_size - 1 + 1) (by omega)]
      simp only [tiles, List.isEmpty_nil, if_true, Bool.and_eq_true, decide_eq_true_eq,
        eq_self_iff_true, true_and, and_true]
      omega
    · have he : min (off + cs - 1) (file_size - 1) = off + cs - 1 := min_eq_left (by omega)
      rw [he]
      have hrec := ih (off + cs - 1 + 1) (by omega) (by omega)
      cases hrest : createChunksLoop file_size cs n (off + cs - 1 + 1) with
      | nil =>
        rw [hrest] at hrec
        simp [tiles] at hrec
      | cons a t =>
        rw [hrest] at hrec
        simp only [tiles, List.isEmpty_cons, Bool.false_eq_true, if_false, Bool.and_eq_true,
          decide_eq_true_eq] at hrec ⊢
        refine ⟨by trivial, by omega, ?_⟩
        exact hrec

/-- The adjusted chunk size is positive whenever the configured one is. -/
theorem effectiveChunkSize_pos (file_size chunk_size : Int) (thread_count : Nat)
    (hcs : 1 ≤ chunk_size) (htc : 1 ≤ thread_count) :
    ∃ cs, effectiveChunkSize file_size chunk_size thread_count = some cs ∧ 1 ≤ cs := by
  have h2 : ((thread_count : Int) * 2) ≠ 0 := by
    have : (1 : Int) ≤ (thread_count : Int) := by exact_mod_cast htc
    omega
  simp only [effectiveChunkSize, if_neg h2]
  by_cases hq : file_size.tdiv ((thread_count : Int) * 2) > chunk_size
  · rw [if_pos hq]
    by_cases hm : file_size.tdiv ((thread_count : Int) * 2) < 1048576
    · exact ⟨1048576, by rw [if_pos hm], by omega⟩
    · exact ⟨file_size.tdiv ((thread_count : Int) * 2), by rw [if_neg hm], by omega⟩
  · exact ⟨chunk_size, by rw [if_neg hq], hcs⟩

/-- C4: for every `file_size > 0`, `chunk_size ≥ 1` and `thread_count ≥ 1`,
`create_chunks` returns a non-empty chunk list that exactly tiles
`[0, file_size)`: the first chunk starts at 0, each chunk starts one past its
predecessor's inclusive end, the last chunk ends at `file_size − 1`, and
every chunk has the effective chunk size (the configured size, raised to
`file_size / (2 × thread_count)` when that quotient exceeds it but never
below 1 MiB — the value `effectiveChunkSize` computes) except a possibly
shorter final chunk. -/
theorem c4_create_chunks_tiles (file_size chunk_size : Int) (thread_count : Nat)
    (hfs : 0 < file_size) (hcs : 1 ≤ chunk_size) (htc : 1 ≤ thread_count) :
    ∃ cs L, effectiveChunkSize file_size chunk_size thread_count = some cs ∧
      create_chunks file_size chunk_size thread_count = some L ∧
      tiles file_size cs 0 L = true := by
  obtain ⟨cs, hcs', hpos⟩ := effectiveChunkSize_pos file_size chunk_size thread_count hcs htc
  refine ⟨cs, createChunksLoop file_size cs file_size.toNat 0, hcs', ?_, ?_⟩
  · simp [create_chunks, hcs']
  · exact createChunksLoop_tiles file_size cs hpos file_size.toNat 0 hfs (by omega)

/-- Witness for C4 at `file_size = 10485760`, `chunk_size = 4194304`,
`thread_count = 1`. -/
theorem c4_witness :
    ∃ cs L, effectiveChunkSize 10485760 4194304 1 = some cs ∧
      create_chunks 10485760 4194304 1 = some L ∧
      tiles 10485760 cs 0 L = true :=
  c4_create_chunks_tiles 10485760 4194304 1 (by decide) (by decide) (by decide)

/-- Dropping while a predicate holds only removes an initial segment. -/
theorem exists_append_dropWhile (q : Char → Bool) :
    ∀ l : List Char, ∃ s, s ++ l.dropWhile q = l
  | [] => ⟨[], rfl⟩
  | a :: t => by
    rw [List.dropWhile_cons]
    by_cases hq : q a = true
    · rw [if_pos hq]
      obtain ⟨s, hs⟩ := exists_append_dropWhile q t
      exact ⟨a :: s, by rw [List.cons_append, hs]⟩
    · rw [if_neg hq]
      exact ⟨[], rfl⟩

/-- The head surviving a `dropWhile` fails the predicate. -/
theorem dropWhile_head_false (q : Char → Bool) :
    ∀ (l : List Char) (a : Char) (t : List Char), l.dropWhile q = a :: t → q a = false
  | [], a, t, h => by simp at h
  | b :: l, a, t, h => by
    rw [List.dropWhile_cons] at h
    by_cases hq : q b = true
    · rw [if_pos hq] at h
      exact dropWhile_head_false q l a t h
    · rw [if_neg hq] at h
      cases h
      simpa using hq

/-- The first character of a non-empty trim result is not whitespace. -/
theorem trim_head_not_ws (u : List Char) (c : Char) (t0 : List Char)
    (h : trimChars u = c :: t0) : c.isWhitespace = false := by
  obtain ⟨s, hs⟩ := exists_append_dropWhile Char.isWhitespace
    (u.dropWhile Char.isWhitespace).reverse
  have hm : u.dropWhile Char.isWhitespace = trimChars u ++ s.reverse := by
    have := congrArg List.reverse hs
    rw [List.reverse_append, List.reverse_reverse] at this
    rw [← this]
    rfl
  rw [h] at hm
  exact dropWhile_head_false Char.isWhitespace u c (t0 ++ s.reverse) (by rw [hm]; rfl)

/-- A string whose first and last characters are not whitespace trims to
itself. -/
theorem trimChars_eq_self (d : Char) (t : List Char) (hd : d.isWhitespace = false)
    (hl : ∀ g, (d :: t).getLast? = some g → g.isWhitespace = false) :
    trimChars (d :: t) = d :: t := by
  unfold trimChars
  rw [List.dropWhile_cons, if_neg (by simp [hd])]
  cases hr : (d :: t).reverse with
  | nil => simp at hr
  | cons g r' =>
    have hg : (d :: t).getLast? = some g := by
      rw [← List.head?_reverse, hr]
      rfl
    rw [List.dropWhile_cons, if_neg (by simp [hl g hg]), ← hr, List.reverse_reverse]

/-- Appending the `websocket` segment makes the last character `t`. -/
theorem getLast?_append_seg (l : List Char) : (l ++ websocketSeg).getLast? = some 't' := by
  rw [List.getLast?_append_of_ne_nil l (by simp [websocketSeg])]
  rfl

/-- The fix-up `ensureSlash` keeps the head character. -/
theorem ensureSlash_cons (d : Char) (rest : List Char) :
    ∃ rest', ensureSlash (d :: rest) = d :: rest' := by
  unfold ensureSlash
  split
  · exact ⟨rest, rfl⟩
  · exact ⟨rest ++ ['/'], by simp⟩

/-- A pattern whose head differs from the target's head is not a prefix. -/
theorem hasPre_cons_false (a b : Char) (p l : List Char) (h : (a == b) = false) :
    hasPre (a :: p) (b :: l) = false := by
  simp [hasPre, h]

/-- If a pattern is a prefix of `w ++ r` then it is a prefix of `w`, or `w`
is shorter than the pattern and is exactly the pattern's corresponding
initial segment. -/
theorem hasPre_append_cases : ∀ (p w r : List Char), hasPre p (w ++ r) = true →
    hasPre p w = true ∨ (w.length < p.length ∧ w = p.take w.length)
  | [], w, r, _ => Or.inl (by cases w <;> rfl)
  | a :: p', [], r, _ => Or.inr ⟨by simp, by simp⟩
  | a :: p', b :: w', r, h => by
    simp only [List.cons_append, hasPre, Bool.and_eq_true] at h
    rcases hasPre_append_cases p' w' r h.2 with hp | ⟨hlen, htake⟩
    · exact Or.inl (by simp [hasPre, h.1, hp])
    · refine Or.inr ⟨by simp only [List.length_cons]; omega, ?_⟩
      have hab : a = b := by simpa using h.1
      simp only [List.length_cons, List.take_succ_cons]
      rw [← htake, hab]

/-- If `http://` was not a prefix of a non-empty string, it is still not a
prefix after the trailing-slash fix-up and the `websocket` segment are
appended. -/
theorem no_http_after_append (c : Char) (t0 : List Char)
    (hA : hasPre httpScheme (c :: t0) = false) :
    hasPre httpScheme (ensureSlash (c :: t0) ++ websocketSeg) = false := by
  unfold ensureSlash
  by_cases hsl : (c :: t0).getLast? = some '/'
  · rw [if_pos hsl]
    by_contra hcon
    have hcon := eq_true_of_ne_false hcon
    rcases hasPre_append_cases _ _ _ hcon with hp | ⟨hlen, htake⟩
    · rw [hA] at hp
      exact Bool.false_ne_true hp
    · have hlen1 : 1 ≤ (c :: t0).length := by simp
      have hlen7 : (c :: t0).length < 7 := by simpa [httpScheme] using hlen
      have hk : (c :: t0).length = 1 ∨ (c :: t0).length = 2 ∨ (c :: t0).length = 3 ∨
          (c :: t0).length = 4 ∨ (c :: t0).length = 5 ∨ (c :: t0).length = 6 := by omega
      rcases hk with hk | hk | hk | hk | hk | hk <;> rw [hk] at htake <;>
        rw [htake] at hsl hcon <;> revert hsl hcon <;> decide
  · rw [if_neg hsl, List.append_assoc]
    by_contra hcon
    have hcon := eq_true_of_ne_false hcon
    rcases hasPre_append_cases _ _ _ hcon with hp | ⟨hlen, htake⟩
    · rw [hA] at hp
      exact Bool.false_ne_true hp
    · have hlen1 : 1 ≤ (c :: t0).length := by simp
      have hlen7 : (c :: t0).length < 7 := by simpa [httpScheme] using hlen
      have hk : (c :: t0).length = 1 ∨ (c :: t0).length = 2 ∨ (c :: t0).length = 3 ∨
          (c :: t0).length = 4 ∨ (c :: t0).length = 5 ∨ (c :: t0).length = 6 := by omega
      rcases hk with hk | hk | hk | hk | hk | hk <;> rw [hk] at htake <;>
        rw [htake] at hsl hcon <;> revert hsl hcon <;> decide

/-- Same exclusion for the `https://` pattern. -/
theorem no_https_after_append (c : Char) (t0 : List Char)
    (hB : hasPre httpsScheme (c :: t0) = false) :
    hasPre httpsScheme (ensureSlash (c :: t0) ++ websocketSeg) = false := by
  unfold ensureSlash
  by_cases hsl : (c :: t0).getLast? = some '/'
  · rw [if_pos hsl]
    by_contra hcon
    have hcon := eq_true_of_ne_false hcon
    rcases hasPre_append_cases _ _ _ hcon with hp | ⟨hlen, htake⟩
    · rw [hB] at hp
      exact Bool.false_ne_true hp
    · have hlen1 : 1 ≤ (c :: t0).length := by simp
      have hlen8 : (c :: t0).length < 8 := by simpa [httpsScheme] using hlen
      have hk : (c :: t0).length = 1 ∨ (c :: t0).length = 2 ∨ (c :: t0).length = 3 ∨
          (c :: t0).length = 4 ∨ (c :: t0).length = 5 ∨ (c :: t0).length = 6 ∨
          (c :: t0).length = 7 := by omega
      rcases hk with hk | hk | hk | hk | hk | hk | hk <;> rw [hk] at htake <;>
        rw [htake] at hsl hcon <;> revert hsl hcon <;> decide
  · rw [if_neg hsl, List.append_assoc]
    by_contra hcon
    have hcon := eq_true_of_ne_false hcon
    rcases hasPre_append_cases _ _ _ hcon with hp | ⟨hlen, htake⟩
    · rw [hB] at hp
      exact Bool.false_ne_true hp
    · have hlen1 : 1 ≤ (c :: t0).length := by simp
      have hlen8 : (c :: t0).length < 8 := by simpa [httpsScheme] using hlen
      have hk : (c :: t0).length = 1 ∨ (c :: t0).length = 2 ∨ (c :: t0).length = 3 ∨
          (c :: t0).length = 4 ∨ (c :: t0).length = 5 ∨ (c :: t0).length = 6 ∨
          (c :: t0).length = 7 := by omega
      rcases hk with hk | hk | hk | hk | hk | hk | hk <;> rw [hk] at htake <;>
        rw [htake] at hsl hcon <;> revert hsl hcon <;> decide

/-- Applying `normalize_websocket_url` to a string with a non-whitespace
head, last character `t`, and neither `http://` nor `https://` as prefix just
appends `/websocket`. -/
theorem normalize_further (d : Char) (rest : List Char) (hd : d.isWhitespace = false)
    (hlast : (d :: rest).getLast? = some 't')
    (hA : hasPre httpScheme (d :: rest) = false)
    (hB : hasPre httpsScheme (d :: rest) = false) :
    normalize_websocket_url (d :: rest) = (d :: rest) ++ ('/' :: websocketSeg) := by
  have htrim : trimChars (d :: rest) = d :: rest :=
    trimChars_eq_self d rest hd (fun g hg => by
      rw [hlast] at hg
      cases hg
      decide)
  simp only [normalize_websocket_url, htrim]
  rw [if_neg (by simp)]
  rw [show rewriteScheme (d :: rest) = d :: rest from by
    unfold rewriteScheme
    rw [if_neg (by simp [hA]), if_neg (by simp [hB])]]
  rw [show ensureSlash (d :: rest) = (d :: rest) ++ ['/'] from by
    unfold ensureSlash
    rw [if_neg (by rw [hlast]; simp)]]
  simp

/-- C6 counterexample: normalisation is not idempotent.  On `http://a` one
application yields `ws://a/websocket`; a second application appends a further
`/websocket`, so `normalize(normalize(u)) ≠ normalize(u)`. -/
theorem c6_counterexample :
    normalize_websocket_url
        (normalize_websocket_url ['h', 't', 't', 'p', ':', '/', '/', 'a']) ≠
      normalize_websocket_url ['h', 't', 't', 'p', ':', '/', '/', 'a'] := by
  decide

/-- C6 (amended): `normalize_websocket_url` is not idempotent; instead, for
every input with a non-empty trim, a second application appends exactly one
further `/websocket` segment: `normalize(normalize(u)) = normalize(u) ++
"/websocket"`.  (On whitespace-only inputs both sides are the empty string, so
reapplication is the identity only there.) -/
theorem c6_normalize_reapply (u : List Char) (h : trimChars u ≠ []) :
    normalize_websocket_url (normalize_websocket_url u) =
      normalize_websocket_url u ++ ('/' :: websocketSeg) := by
  obtain ⟨c, t0, hct⟩ := List.exists_cons_of_ne_nil h
  have hcws : c.isWhitespace = false := trim_head_not_ws u c t0 hct
  have hv : normalize_websocket_url u =
      ensureSlash (rewriteScheme (c :: t0)) ++ websocketSeg := by
    simp only [normalize_websocket_url, hct]
    rw [if_neg (by simp)]
  rw [hv]
  by_cases hA : hasPre httpScheme (c :: t0) = true
  · have hr : rewriteScheme (c :: t0) = 'w' :: (['s', ':', '/', '/'] ++ (c :: t0).drop 7) := by
      unfold rewriteScheme
      rw [if_pos hA]
      rfl
    rw [hr]
    obtain ⟨rest', hrest'⟩ := ensureSlash_cons 'w' (['s', ':', '/', '/'] ++ (c :: t0).drop 7)
    rw [hrest', List.cons_append]
    refine normalize_further 'w' (rest' ++ websocketSeg) (by decide) ?_ ?_ ?_
    · have hg := getLast?_append_seg ('w' :: rest')
      rwa [List.cons_append] at hg
    · rw [show httpScheme = 'h' :: ['t', 't', 'p', ':', '/', '/'] from rfl]
      exact hasPre_cons_false 'h' 'w' _ _ (by decide)
    · rw [show httpsScheme = 'h' :: ['t', 't', 'p', 's', ':', '/', '/'] from rfl]
      exact hasPre_cons_false 'h' 'w' _ _ (by decide)
  · by_cases hB : hasPre httpsScheme (c :: t0) = true
    · have hr : rewriteScheme (c :: t0) =
          'w' :: (['s', 's', ':', '/', '/'] ++ (c :: t0).drop 8) := by
        unfold rewriteScheme
        rw [if_neg hA, if_pos hB]
        rfl
      rw [hr]
      obtain ⟨rest', hrest'⟩ :=
        ensureSlash_cons 'w' (['s', 's', ':', '/', '/'] ++ (c :: t0).drop 8)
      rw [hrest', List.cons_append]
      refine normalize_further 'w' (rest' ++ websocketSeg) (by decide) ?_ ?_ ?_
      · have hg := getLast?_append_seg ('w' :: rest')
        rwa [List.cons_append] at hg
      · rw [show httpScheme = 'h' :: ['t', 't', 'p', ':', '/', '/'] from rfl]
        exact hasPre_cons_false 'h' 'w' _ _ (by decide)
      · rw [show httpsScheme = 'h' :: ['t', 't', 'p', 's', ':', '/', '/'] from rfl]
        exact hasPre_cons_false 'h' 'w' _ _ (by decide)
    · have hA0 : hasPre httpScheme (c :: t0) = false := by simpa using hA
      have hB0 : hasPre httpsScheme (c :: t0) = false := by simpa using hB
      have hr : rewriteScheme (c :: t0) = c :: t0 := by
        unfold rewriteScheme
        rw [if_neg hA, if_neg hB]
      have hhttp := no_http_after_append c t0 hA0
      have hhttps := no_https_after_append c t0 hB0
      have hg := getLast?_append_seg (ensureSlash (c :: t0))
      rw [hr]
      obtain ⟨rest', hrest'⟩ := ensureSlash_cons c t0
      rw [hrest', List.cons_append] at hhttp hhttps hg ⊢
      exact normalize_further c (rest' ++ websocketSeg) hcws hg hhttp hhttps

/-- Witness for C6 at the concrete input `http://a`, discharging the
non-empty-trim hypothesis by evaluation. -/
theorem c6_witness :
    normalize_websocket_url
        (normalize_websocket_url ['h', 't', 't', 'p', ':', '/', '/', 'a']) =
      normalize_websocket_url ['h', 't', 't', 'p', ':', '/', '/', 'a'] ++
        ('/' :: websocketSeg) :=
  c6_normalize_reapply ['h', 't', 't', 'p', ':', '/', '/', 'a'] (by decide)
